import Mathlib

/-!
Verification of the sketcher native stroke-geometry pipeline
(src/native/src/calligraphy_native.cpp) against its specification.

The C functions are shallowly embedded as Lean functions:
point buffers become lists, the separately passed counts become the list
lengths, capacities stay integers (C int, possibly negative), nullable
pointers become Option-wrapped lists or Boolean null flags for output
pointers, and each function returns the written count together with the
list of elements actually written.  The point-sequence filters work on
exact rationals; the calligraphy segment calculator and the mesh builder,
whose arithmetic involves square roots and the trigonometric table, are
embedded over the reals.
-/

namespace Sketcher

/-- PointData struct of the C interface, parametrised by the scalar type. -/
structure PointData (α : Type) where
  x : α
  y : α
  pressure : α
  timestamp : α
  tiltX : α
  tiltY : α
deriving DecidableEq

abbrev PointQ := PointData ℚ

abbrev PointR := PointData ℝ

instance : Inhabited PointQ := ⟨⟨0, 0, 0, 0, 0, 0⟩⟩

instance : Inhabited PointR := ⟨⟨0, 0, 0, 0, 0, 0⟩⟩

/-- dist2 helper of the C file: squared Euclidean distance. -/
def dist2 (x1 y1 x2 y2 : ℚ) : ℚ :=
  (x2 - x1) * (x2 - x1) + (y2 - y1) * (y2 - y1)

/-- Consecutive pairs (points[i], points[i+1]) of a buffer. -/
def consecPairs {α : Type} (l : List α) : List (α × α) :=
  l.zip l.tail

/-- Loop body of resample_stroke_points: walks the remaining input,
emitting a point whenever its squared distance from the last emitted
point reaches spacing2, while the written count is below capacity. -/
def resampleLoop (spacing2 : ℚ) (max_output : ℤ) :
    List PointQ → PointQ → ℤ → List PointQ
  | [], _, _ => []
  | p :: rest, last, out =>
    if out < max_output then
      if dist2 last.x last.y p.x p.y ≥ spacing2 then
        p :: resampleLoop spacing2 max_output rest p (out + 1)
      else
        resampleLoop spacing2 max_output rest last out
    else []

/-- resample_stroke_points: null/shape guard, single-point shortcut,
spacing walk, then unconditional append of the final input sample when
capacity remains. -/
def resample_stroke_points (input? : Option (List PointQ)) (output_null : Bool)
    (spacing : ℚ) (max_output : ℤ) : ℤ × List PointQ :=
  if input?.isNone = true ∨ output_null = true ∨
      (input?.getD []).length = 0 ∨ max_output ≤ 0 then (0, [])
  else
    let input := input?.getD []
    if input.length = 1 then (1, input)
    else
      let spacing2 := spacing * spacing
      let emitted := input.headI :: resampleLoop spacing2 max_output input.tail input.headI 1
      let outList := emitted ++
        (if (emitted.length : ℤ) < max_output then [input.getLastD default] else [])
      ((outList.length : ℤ), outList)

/-- Smoothed interior point: convex combination of the point and the
average of its two neighbours, with timestamp and tilt passed through. -/
def smoothPoint (factor : ℚ) (prev curr next : PointQ) : PointQ :=
  let inv_factor := 1 - factor
  { x := factor * (prev.x + next.x) * 0.5 + inv_factor * curr.x
    y := factor * (prev.y + next.y) * 0.5 + inv_factor * curr.y
    pressure := factor * (prev.pressure + next.pressure) * 0.5 + inv_factor * curr.pressure
    timestamp := curr.timestamp
    tiltX := curr.tiltX
    tiltY := curr.tiltY }

/-- Interior loop of smooth_stroke_points over the sliding window
(prev, curr, next); stops when the written count reaches capacity or
when the current point is the last input point. -/
def smoothLoop (factor : ℚ) (max_output : ℤ) :
    PointQ → List PointQ → ℤ → List PointQ
  | _, [], _ => []
  | _, [_], _ => []
  | prev, curr :: next :: more, out =>
    if out < max_output then
      smoothPoint factor prev curr next :: smoothLoop factor max_output curr (next :: more) (out + 1)
    else []

/-- smooth_stroke_points: for fewer than 3 points (or non-positive
capacity) copies min(input_count, max_output) points and returns that
value; otherwise anchors the first point, smooths the interior, and
appends the last point if capacity remains. -/
def smooth_stroke_points (input : List PointQ) (smoothing_factor : ℚ)
    (max_output : ℤ) : ℤ × List PointQ :=
  if (input.length : ℤ) < 3 ∨ max_output ≤ 0 then
    let copy_count := min (input.length : ℤ) max_output
    (copy_count, input.take copy_count.toNat)
  else
    let factor := if smoothing_factor < 0 then 0
      else if 1 < smoothing_factor then 1 else smoothing_factor
    let interior := smoothLoop factor max_output input.headI input.tail 1
    let outList := (input.headI :: interior) ++
      (if (1 + (interior.length : ℤ)) < max_output then [input.getLastD default] else [])
    ((outList.length : ℤ), outList)

/-- Deviation measure of the rdp helper: squared distance from P to its
projection onto the chord AB, the projection parameter clamped to [0,1]
(degenerate chords use t = 0). -/
def rdpDev (A B P : PointQ) : ℚ :=
  let vx := B.x - A.x
  let vy := B.y - A.y
  let vlen2 := vx * vx + vy * vy
  let t0 := if vlen2 > 1e-12 then ((P.x - A.x) * vx + (P.y - A.y) * vy) / vlen2 else 0
  let t := max 0 (min 1 t0)
  let projx := A.x + t * vx
  let projy := A.y + t * vy
  dist2 P.x P.y projx projy

/-- Scan of the rdp helper over indices s+1 .. e-1: index of the point of
maximum deviation (strictly greater updates, -1 sentinel) and that
deviation. -/
def rdpFindMax (pts : List PointQ) (s e : ℕ) : ℤ × ℚ :=
  (List.range' (s + 1) (e - s - 1)).foldl
    (fun acc i =>
      let d2 := rdpDev (pts.getD s default) (pts.getD e default) (pts.getD i default)
      if d2 > acc.2 then ((i : ℤ), d2) else acc)
    (-1, 0)

lemma rdpFindMax_fst_eq_or_mem (pts : List PointQ) (s e : ℕ) :
    ∀ (l : List ℕ) (init : ℤ × ℚ),
      (l.foldl (fun acc i =>
        let d2 := rdpDev (pts.getD s default) (pts.getD e default) (pts.getD i default)
        if d2 > acc.2 then ((i : ℤ), d2) else acc) init).1 = init.1 ∨
      ∃ i ∈ l, (l.foldl (fun acc i =>
        let d2 := rdpDev (pts.getD s default) (pts.getD e default) (pts.getD i default)
        if d2 > acc.2 then ((i : ℤ), d2) else acc) init).1 = (i : ℤ) := by
  intro l
  induction l with
  | nil => intro init; exact Or.inl rfl
  | cons a l ih =>
    intro init
    simp only [List.foldl_cons]
    rcases ih (if rdpDev (pts.getD s default) (pts.getD e default) (pts.getD a default) >
        init.2 then ((a : ℤ), _) else init) with h | ⟨i, hi, h⟩
    · rw [h]
      by_cases hd : rdpDev (pts.getD s default) (pts.getD e default) (pts.getD a default) > init.2
      · exact Or.inr ⟨a, List.mem_cons_self a l, by rw [if_pos hd]⟩
      · exact Or.inl (by rw [if_neg hd])
    · exact Or.inr ⟨i, List.mem_cons_of_mem a hi, h⟩

/-- Bounds on the index returned by the scan: either the -1 sentinel or a
loop index strictly between s and e. -/
lemma rdpFindMax_bounds (pts : List PointQ) (s e : ℕ) :
    (rdpFindMax pts s e).1 = -1 ∨
      ((s : ℤ) + 1 ≤ (rdpFindMax pts s e).1 ∧ (rdpFindMax pts s e).1 ≤ (e : ℤ) - 1) := by
  rcases rdpFindMax_fst_eq_or_mem pts s e (List.range' (s + 1) (e - s - 1)) (-1, 0) with h | ⟨i, hi, h⟩
  · exact Or.inl h
  · rw [List.mem_range'_1] at hi
    refine Or.inr ⟨?_, ?_⟩
    · rw [rdpFindMax, h]; exact_mod_cast hi.1
    · rw [rdpFindMax, h]
      have := hi.2
      omega

/-- Recursive rdp helper: returns the points pushed between the retained
endpoints s and e (exclusive), in output order. -/
def rdp (pts : List PointQ) (eps2 : ℚ) (s e : ℕ) : List PointQ :=
  if hse : e ≤ s + 1 then []
  else
    let idx := (rdpFindMax pts s e).1
    let maxd := (rdpFindMax pts s e).2
    if hgo : maxd > eps2 ∧ idx ≠ -1 then
      rdp pts eps2 s idx.toNat ++ pts.getD idx.toNat default :: rdp pts eps2 idx.toNat e
    else []
termination_by e - s
decreasing_by
  · rcases rdpFindMax_bounds pts s e with h | ⟨h1, h2⟩
    · exact absurd h hgo.2
    · omega
  · rcases rdpFindMax_bounds pts s e with h | ⟨h1, h2⟩
    · exact absurd h hgo.2
    · omega

/-- simplify_stroke_rdp: shape guards, identity copy for up to two
points, otherwise first point, recursive simplification, last point,
truncated to capacity. -/
def simplify_stroke_rdp (input? : Option (List PointQ)) (output_null : Bool)
    (epsilon : ℚ) (max_output : ℤ) : ℤ × List PointQ :=
  if input?.isNone = true ∨ output_null = true ∨
      (input?.getD []).length = 0 ∨ max_output ≤ 0 then (0, [])
  else
    let pts := input?.getD []
    if (pts.length : ℤ) ≤ 2 then
      let c := min (pts.length : ℤ) max_output
      (c, pts.take c.toNat)
    else
      let out := pts.headI :: (rdp pts (epsilon * epsilon) 0 (pts.length - 1) ++ [pts.getLastD default])
      let c := min (out.length : ℤ) max_output
      (c, out.take c.toNat)

/-- Loop of compute_stroke_velocity: distance over time-delta (floored at
1e-6) per consecutive pair, while capacity remains. -/
noncomputable def velocityLoop (max_output : ℤ) : List (PointQ × PointQ) → ℤ → List ℝ
  | [], _ => []
  | (a, b) :: rest, out =>
    if out < max_output then
      (Real.sqrt ((dist2 a.x a.y b.x b.y : ℚ) : ℝ) /
        max 1e-6 ((b.timestamp : ℝ) - (a.timestamp : ℝ))) :: velocityLoop max_output rest (out + 1)
    else []

/-- compute_stroke_velocity: null/shape guard then the velocity loop. -/
noncomputable def compute_stroke_velocity (points? : Option (List PointQ))
    (output_null : Bool) (max_output : ℤ) : ℤ × List ℝ :=
  if points?.isNone = true ∨ output_null = true ∨
      ((points?.getD []).length : ℤ) < 2 ∨ max_output ≤ 0 then (0, [])
  else
    let pts := points?.getD []
    let vels := velocityLoop max_output (consecPairs pts) 0
    ((vels.length : ℤ), vels)

/-- Truncation toward zero of a real number, the semantics of a C
double-to-int cast. -/
noncomputable def truncToInt (x : ℝ) : ℤ :=
  if 0 ≤ x then ⌊x⌋ else ⌈x⌉

/-- FastTrig table index for an angle in radians: linear scaling into the
3600-entry table, C truncated remainder, negative results shifted into
range. -/
noncomputable def fastTrigIndex (angle_rad : ℝ) : ℤ :=
  let index := Int.tmod (truncToInt ((angle_rad * 3600) / (2 * Real.pi))) 3600
  if index < 0 then index + 3600 else index

/-- FastTrig::fast_sin: sine of the quantized table angle i * pi / 1800. -/
noncomputable def fast_sin (angle_rad : ℝ) : ℝ :=
  Real.sin (((fastTrigIndex angle_rad : ℝ) * Real.pi) / 1800)

/-- FastTrig::fast_cos: cosine of the quantized table angle i * pi / 1800. -/
noncomputable def fast_cos (angle_rad : ℝ) : ℝ :=
  Real.cos (((fastTrigIndex angle_rad : ℝ) * Real.pi) / 1800)

/-- CalligraphySegment struct of the C interface. -/
structure CalligraphySegment where
  x1 : ℝ
  y1 : ℝ
  x2 : ℝ
  y2 : ℝ
  thickness : ℝ
  alpha : ℝ

/-- Vertex2D struct of the C interface: position plus per-vertex alpha. -/
structure Vertex2D where
  x : ℝ
  y : ℝ
  alpha : ℝ

/-- Thickness formula of calculate_calligraphy_segments (lines 147-150):
the 0.6 floor applied to base times orientation shaping times average
pressure. -/
noncomputable def calc_segment_thickness (thickness_base cross_product avg_pressure : ℝ) : ℝ :=
  max 0.6 (thickness_base * (0.35 + 0.9 * cross_product) * avg_pressure)

/-- Thickness formula of build_calligraphy_mesh (line 361), identical in
shape to the segment calculator's. -/
noncomputable def mesh_segment_thickness (thickness_base cross_p pressure : ℝ) : ℝ :=
  max 0.6 (thickness_base * (0.35 + 0.9 * cross_p) * pressure)

/-- std::clamp(v, 0.3, 2.5) as applied to the nib width factor. -/
noncomputable def clampWidthFactor (v : ℝ) : ℝ :=
  if v < 0.3 then 0.3 else if 2.5 < v then 2.5 else v

/-- Loop of calculate_calligraphy_segments over consecutive point pairs:
runs while the segment count is below capacity, skips near-zero-length
segments, and emits one descriptor per remaining segment carrying the
unclamped opacity parameter. -/
noncomputable def calcSegLoop (ndx ndy thickness_base opacity : ℝ) (max_segments : ℤ) :
    List (PointR × PointR) → ℤ → List CalligraphySegment
  | [], _ => []
  | (a, b) :: rest, segment_count =>
    if segment_count < max_segments then
      let segx := b.x - a.x
      let segy := b.y - a.y
      let length_sq := segx * segx + segy * segy
      if length_sq < 1e-12 then
        calcSegLoop ndx ndy thickness_base opacity max_segments rest segment_count
      else
        let length := Real.sqrt length_sq
        let tx := segx / length
        let ty := segy / length
        let cross_product := |tx * ndy - ty * ndx|
        let avg_pressure := (a.pressure + b.pressure) * 0.5
        let thickness := calc_segment_thickness thickness_base cross_product avg_pressure
        ⟨a.x, a.y, b.x, b.y, thickness, opacity⟩ ::
          calcSegLoop ndx ndy thickness_base opacity max_segments rest (segment_count + 1)
    else []

/-- calculate_calligraphy_segments: count/capacity guard (no null
checks in the source), nib direction from the trig cache, clamped width
factor, then the segment loop. -/
noncomputable def calculate_calligraphy_segments (points : List PointR)
    (stroke_width opacity nib_angle_deg nib_width_factor : ℝ)
    (max_segments : ℤ) : ℤ × List CalligraphySegment :=
  if (points.length : ℤ) < 2 ∨ max_segments ≤ 0 then (0, [])
  else
    let nib_angle_rad := nib_angle_deg * Real.pi / 180
    let ndx := fast_cos nib_angle_rad
    let ndy := fast_sin nib_angle_rad
    let thickness_base := stroke_width * clampWidthFactor nib_width_factor
    let segs := calcSegLoop ndx ndy thickness_base opacity max_segments (consecPairs points) 0
    ((segs.length : ℤ), segs)

/-- Loop of build_calligraphy_mesh: skips near-zero-length segments,
breaks atomically when either capacity would be exceeded, otherwise
emits the quad's four vertices (start-left, start-right, end-left,
end-right) with clamped alpha and the six indices of its two triangles. -/
noncomputable def meshLoop (ndx ndy thickness_base opacity : ℝ) (max_vertices max_indices : ℤ) :
    List (PointR × PointR) → ℕ → ℕ → List Vertex2D × List ℕ
  | [], _, _ => ([], [])
  | (a, b) :: rest, vcount, icount =>
    let segx := b.x - a.x
    let segy := b.y - a.y
    let len2 := segx * segx + segy * segy
    if len2 < 1e-12 then meshLoop ndx ndy thickness_base opacity max_vertices max_indices rest vcount icount
    else
      let len := Real.sqrt len2
      let tx := segx / len
      let ty := segy / len
      let cross_p := |tx * ndy - ty * ndx|
      let pressure := (a.pressure + b.pressure) * 0.5
      let thickness := mesh_segment_thickness thickness_base cross_p pressure
      let half_w := 0.5 * thickness
      let nx := -ty
      let ny := tx
      if (vcount : ℤ) + 4 > max_vertices ∨ (icount : ℤ) + 6 > max_indices then ([], [])
      else
        let va := if opacity * pressure < 0 then 0
          else if 1 < opacity * pressure then 1 else opacity * pressure
        let tailOut := meshLoop ndx ndy thickness_base opacity max_vertices max_indices rest
          (vcount + 4) (icount + 6)
        (⟨a.x - nx * half_w, a.y - ny * half_w, va⟩ ::
         ⟨a.x + nx * half_w, a.y + ny * half_w, va⟩ ::
         ⟨b.x - nx * half_w, b.y - ny * half_w, va⟩ ::
         ⟨b.x + nx * half_w, b.y + ny * half_w, va⟩ :: tailOut.1,
         vcount :: (vcount + 2) :: (vcount + 1) ::
         (vcount + 1) :: (vcount + 2) :: (vcount + 3) :: tailOut.2)

/-- Result of build_calligraphy_mesh: returned vertex count, the written
vertices and indices, and the value written through out_index_count
(none when the call returned before touching it). -/
structure MeshResult where
  ret : ℤ
  verts : List Vertex2D
  idxs : List ℕ
  index_count : Option ℤ

/-- build_calligraphy_mesh: the null guard returns without writing
out_index_count, the shape guard writes 0 to it, and the main path runs
the quad loop from zero counters. -/
noncomputable def build_calligraphy_mesh (points? : Option (List PointR))
    (stroke_width opacity nib_angle_deg nib_width_factor : ℝ)
    (verts_null : Bool) (max_vertices : ℤ)
    (idxs_null : Bool) (max_indices : ℤ)
    (index_count_null : Bool) : MeshResult :=
  if points?.isNone = true ∨ verts_null = true ∨ idxs_null = true ∨ index_count_null = true then
    ⟨0, [], [], none⟩
  else
    let pts := points?.getD []
    if (pts.length : ℤ) < 2 ∨ max_vertices < 4 ∨ max_indices < 6 then ⟨0, [], [], some 0⟩
    else
      let nib_angle_rad := nib_angle_deg * Real.pi / 180
      let ndx := fast_cos nib_angle_rad
      let ndy := fast_sin nib_angle_rad
      let thickness_base := stroke_width * clampWidthFactor nib_width_factor
      let out := meshLoop ndx ndy thickness_base opacity max_vertices max_indices (consecPairs pts) 0 0
      ⟨(out.1.length : ℤ), out.1, out.2, some (out.2.length : ℤ)⟩

/-- Quad corners of the spec's mesh description (section 4.4), rebuilt
from a segment descriptor: perpendicular unit vector to the segment
tangent, each endpoint offset by plus/minus half the descriptor's
thickness, in the fixed order start-left, start-right, end-left,
end-right. -/
noncomputable def quadCorners (d : CalligraphySegment) : List (ℝ × ℝ) :=
  let vx := d.x2 - d.x1
  let vy := d.y2 - d.y1
  let len := Real.sqrt (vx * vx + vy * vy)
  let tx := vx / len
  let ty := vy / len
  let nx := -ty
  let ny := tx
  let half_w := 0.5 * d.thickness
  [(d.x1 - nx * half_w, d.y1 - ny * half_w),
   (d.x1 + nx * half_w, d.y1 + ny * half_w),
   (d.x2 - nx * half_w, d.y2 - ny * half_w),
   (d.x2 + nx * half_w, d.y2 + ny * half_w)]

/-! Theorems. -/

/-- C1 counterexample: resampling the three-sample example at spacing 5
with capacity 4 returns four samples, the end sample appearing twice,
so the claimed three-sample output is wrong. -/
theorem C1_counterexample :
    resample_stroke_points (some [⟨0,0,1,0,0,0⟩, ⟨10,0,1,1,0,0⟩, ⟨20,0,1,2,0,0⟩]) false 5 4
      = (4, [⟨0,0,1,0,0,0⟩, ⟨10,0,1,1,0,0⟩, ⟨20,0,1,2,0,0⟩, ⟨20,0,1,2,0,0⟩]) ∧
    (4 : ℤ) ≠ 3 := by
  constructor
  · norm_num [resample_stroke_points, resampleLoop, dist2]
  · decide

/-- C1 (amended): resampling the three-sample example input at spacing 5
with any output capacity of at least 4 yields the three input samples
followed by a second copy of the end sample: the end sample is emitted
once by the spacing test and once more by the unconditional final
append, for a returned count of 4. -/
theorem C1_amended (max_output : ℤ) (h : 4 ≤ max_output) :
    resample_stroke_points (some [⟨0,0,1,0,0,0⟩, ⟨10,0,1,1,0,0⟩, ⟨20,0,1,2,0,0⟩]) false 5 max_output
      = (4, [⟨0,0,1,0,0,0⟩, ⟨10,0,1,1,0,0⟩, ⟨20,0,1,2,0,0⟩, ⟨20,0,1,2,0,0⟩]) := by
  have h0 : ¬ (max_output ≤ 0) := by omega
  have h2 : (1:ℤ) < max_output := by omega
  have h3 : (2:ℤ) < max_output := by omega
  have h4 : (3:ℤ) < max_output := by omega
  norm_num [resample_stroke_points, resampleLoop, dist2, h0, h2, h3, h4]

/-- C1 witness: the amended theorem applied at capacity exactly 4. -/
theorem C1_witness :
    (4 : ℤ) ≤ 4 ∧
    resample_stroke_points (some [⟨0,0,1,0,0,0⟩, ⟨10,0,1,1,0,0⟩, ⟨20,0,1,2,0,0⟩]) false 5 4
      = (4, [⟨0,0,1,0,0,0⟩, ⟨10,0,1,1,0,0⟩, ⟨20,0,1,2,0,0⟩, ⟨20,0,1,2,0,0⟩]) :=
  ⟨by decide, C1_amended 4 (by decide)⟩

/-- C3 counterexample: smooth_stroke_points with an empty input (count
0, non-positive) and capacity -3 (non-positive) returns -3, not the
claimed zero-element result. -/
theorem C3_counterexample :
    smooth_stroke_points [] 0 (-3) = (-3, []) ∧ (-3 : ℤ) ≠ 0 := by
  constructor
  · norm_num [smooth_stroke_points]
  · decide

/-- C4 counterexample: four input samples 10 apart, spacing 5, capacity
2: the output is the first two samples only, so the last input sample
(30, 0) is not emitted although the capacity is at least 2. -/
theorem C4_counterexample :
    resample_stroke_points (some [⟨0,0,1,0,0,0⟩, ⟨10,0,1,1,0,0⟩, ⟨20,0,1,2,0,0⟩, ⟨30,0,1,3,0,0⟩]) false 5 2
      = (2, [⟨0,0,1,0,0,0⟩, ⟨10,0,1,1,0,0⟩]) ∧
    (⟨30,0,1,3,0,0⟩ : PointQ) ∉ [(⟨0,0,1,0,0,0⟩ : PointQ), ⟨10,0,1,1,0,0⟩] := by
  constructor
  · norm_num [resample_stroke_points, resampleLoop, dist2]
  · norm_num [PointData.mk.injEq]

/-- A chain of adjacent relations survives dropping the last element. -/
lemma chain'_dropLast {α : Type} {R : α → α → Prop} :
    ∀ {l : List α}, List.Chain' R l → List.Chain' R l.dropLast := by
  intro l
  induction l with
  | nil => exact fun h => h
  | cons a l ih =>
    cases l with
    | nil => intro _; exact List.chain'_nil
    | cons b m =>
      intro h
      rw [List.chain'_cons] at h
      cases m with
      | nil => exact List.chain'_singleton a
      | cons c m' =>
        have he : (a :: b :: c :: m').dropLast = a :: (b :: c :: m').dropLast := rfl
        rw [he]
        have htail := ih h.2
        have he2 : (b :: c :: m').dropLast = b :: (c :: m').dropLast := rfl
        rw [he2] at htail ⊢
        exact List.chain'_cons.mpr ⟨h.1, htail⟩

/-- Every point the resample loop emits is at squared distance at least
spacing2 from the previously emitted point. -/
lemma resampleLoop_chain (spacing2 : ℚ) (max_output : ℤ) :
    ∀ (rest : List PointQ) (last : PointQ) (out : ℤ),
      List.Chain (fun p q => dist2 p.x p.y q.x q.y ≥ spacing2) last
        (resampleLoop spacing2 max_output rest last out) := by
  intro rest
  induction rest with
  | nil => intro last out; simp only [resampleLoop]; exact List.Chain.nil
  | cons p rest ih =>
    intro last out
    simp only [resampleLoop]
    split
    · split
      · exact List.Chain.cons (by assumption) (ih p (out + 1))
      · exact ih last out
    · exact List.Chain.nil

/-- For a nonempty list the optional last element is the defaulted one. -/
lemma getLast?_eq_getLastD {α : Type} [Inhabited α] (l : List α) (h : l ≠ []) :
    l.getLast? = some (l.getLastD default) := by
  rw [List.getLastD_eq_getLast?, List.getLast?_eq_getLast l h]
  rfl

/-- C4 (amended): for a nonempty input and capacity at least 2,
resample_stroke_points emits the first input sample first, consecutive
emitted samples other than possibly the last pair are at squared
distance at least spacing squared, and the last input sample is the
final emitted sample provided the returned count is still below
capacity (when the walk exhausts capacity the final append is skipped
and the last input sample can be absent). -/
theorem C4_amended (pts : List PointQ) (spacing : ℚ) (max_output : ℤ)
    (hne : pts ≠ []) (hcap : 2 ≤ max_output) :
    (resample_stroke_points (some pts) false spacing max_output).2.head? = pts.head? ∧
    List.Chain' (fun p q => dist2 p.x p.y q.x q.y ≥ spacing * spacing)
      (resample_stroke_points (some pts) false spacing max_output).2.dropLast ∧
    (((resample_stroke_points (some pts) false spacing max_output).2.length : ℤ) < max_output →
      (resample_stroke_points (some pts) false spacing max_output).2.getLast? = pts.getLast?) := by
  have hcap' : ¬ (max_output ≤ 0) := by omega
  match pts, hne with
  | [p0], _ =>
    simp [resample_stroke_points, hcap', List.chain'_nil]
  | p0 :: q :: tl, _ =>
    have hlen : ¬ ((p0 :: q :: tl).length = 0) := by simp
    have hlen1 : ¬ ((p0 :: q :: tl).length = 1) := by simp
    simp only [resample_stroke_points, Option.isNone_some, Bool.false_eq_true, Option.getD_some,
      hlen, hlen1, or_false, false_or, hcap', if_false, if_neg, List.headI, List.tail]
    set E := resampleLoop (spacing * spacing) max_output (q :: tl) p0 1 with hE
    have hch : List.Chain (fun p q => dist2 p.x p.y q.x q.y ≥ spacing * spacing) p0 E :=
      resampleLoop_chain (spacing * spacing) max_output (q :: tl) p0 1
    by_cases happ : ((p0 :: E).length : ℤ) < max_output
    · rw [if_pos happ]
      refine ⟨rfl, ?_, ?_⟩
      · rw [List.dropLast_concat]
        exact hch
      · intro _
        rw [List.getLast?_concat,
          getLast?_eq_getLastD (p0 :: q :: tl) (by simp)]
    · rw [if_neg happ]
      refine ⟨rfl, ?_, ?_⟩
      · rw [List.append_nil]
        exact chain'_dropLast hch
      · intro hlt
        rw [List.append_nil] at hlt
        exact absurd hlt happ

/-- C4 witness: the amended theorem at a concrete two-point input. -/
theorem C4_witness :
    ([⟨0,0,1,0,0,0⟩, ⟨10,0,1,1,0,0⟩] : List PointQ) ≠ [] ∧ (2:ℤ) ≤ 4 ∧
    ((resample_stroke_points (some [⟨0,0,1,0,0,0⟩, ⟨10,0,1,1,0,0⟩]) false 5 4).2.head?
        = ([⟨0,0,1,0,0,0⟩, ⟨10,0,1,1,0,0⟩] : List PointQ).head? ∧
      List.Chain' (fun p q => dist2 p.x p.y q.x q.y ≥ 5 * 5)
        (resample_stroke_points (some [⟨0,0,1,0,0,0⟩, ⟨10,0,1,1,0,0⟩]) false 5 4).2.dropLast ∧
      (((resample_stroke_points (some [⟨0,0,1,0,0,0⟩, ⟨10,0,1,1,0,0⟩]) false 5 4).2.length : ℤ) < 4 →
        (resample_stroke_points (some [⟨0,0,1,0,0,0⟩, ⟨10,0,1,1,0,0⟩]) false 5 4).2.getLast?
          = ([⟨0,0,1,0,0,0⟩, ⟨10,0,1,1,0,0⟩] : List PointQ).getLast?)) :=
  ⟨by simp, by decide, C4_amended [⟨0,0,1,0,0,0⟩, ⟨10,0,1,1,0,0⟩] 5 4 (by simp) (by decide)⟩

/-- C5 counterexample: three input samples with output capacity 2 and
smoothing factor 1: the last element of the output is the smoothed
interior point (5, 0), not the last input sample (10, 0). -/
theorem C5_counterexample :
    smooth_stroke_points [⟨0,0,1,0,0,0⟩, ⟨5,5,1,1,0,0⟩, ⟨10,0,1,2,0,0⟩] 1 2
      = (2, [⟨0,0,1,0,0,0⟩, ⟨5,0,1,1,0,0⟩]) ∧
    some (⟨5,0,1,1,0,0⟩ : PointQ) ≠ some (⟨10,0,1,2,0,0⟩ : PointQ) := by
  constructor
  · norm_num [smooth_stroke_points, smoothLoop, smoothPoint]
  · norm_num [PointData.mk.injEq]

/-- With enough remaining capacity, the interior smoothing loop emits
one point per window, i.e. one fewer than the remaining input. -/
lemma smoothLoop_length (factor : ℚ) (max_output : ℤ) :
    ∀ (rest : List PointQ) (prev : PointQ) (out : ℤ),
      out + ((rest.length : ℤ) - 1) ≤ max_output →
      (smoothLoop factor max_output prev rest out).length = rest.length - 1 := by
  intro rest
  induction rest with
  | nil => intro prev out _; simp [smoothLoop]
  | cons curr rest ih =>
    intro prev out h
    cases rest with
    | nil => simp [smoothLoop]
    | cons next more =>
      have hlt : out < max_output := by
        simp only [List.length_cons] at h
        push_cast at h
        omega
      simp only [smoothLoop, if_pos hlt, List.length_cons]
      rw [ih curr (out + 1) (by simp only [List.length_cons] at h ⊢; push_cast at h ⊢; omega)]
      simp

/-- C5 (amended): when the output capacity is at least the input length,
smooth_stroke_points returns the first and last input samples unchanged
(bit-identical records) as the first and last elements of its output,
for every smoothing factor; with a smaller capacity the last output
element can instead be a smoothed interior point. -/
theorem C5_amended (input : List PointQ) (smoothing_factor : ℚ) (max_output : ℤ)
    (hcap : (input.length : ℤ) ≤ max_output) :
    (smooth_stroke_points input smoothing_factor max_output).2.head? = input.head? ∧
    (smooth_stroke_points input smoothing_factor max_output).2.getLast? = input.getLast? := by
  by_cases hsmall : (input.length : ℤ) < 3 ∨ max_output ≤ 0
  · have hmin : min (input.length : ℤ) max_output = (input.length : ℤ) := min_eq_left hcap
    have hsmall' : input.length < 3 ∨ max_output ≤ 0 := by
      rcases hsmall with h | h
      · exact Or.inl (by exact_mod_cast h)
      · exact Or.inr h
    simp [smooth_stroke_points, hsmall', hmin]
  · push_neg at hsmall
    obtain ⟨h3, hpos⟩ := hsmall
    have hlen3 : 3 ≤ input.length := by exact_mod_cast h3
    match input, hlen3 with
    | p0 :: q :: r :: tl, _ =>
      have hne : (p0 :: q :: r :: tl : List PointQ) ≠ [] := by simp
      have hns : ¬ (((p0 :: q :: r :: tl).length : ℤ) < 3 ∨ max_output ≤ 0) := by
        push_neg
        constructor
        · simp only [List.length_cons]; push_cast; omega
        · omega
      simp only [smooth_stroke_points, if_neg hns, List.headI, List.tail]
      set F := if smoothing_factor < 0 then (0:ℚ) else if 1 < smoothing_factor then 1 else smoothing_factor with hF
      have hint : (smoothLoop F max_output p0 (q :: r :: tl) 1).length = (q :: r :: tl).length - 1 := by
        apply smoothLoop_length
        simp only [List.length_cons] at hcap ⊢
        push_cast at hcap ⊢
        omega
      have happ : (1 + ((smoothLoop F max_output p0 (q :: r :: tl) 1).length : ℤ)) < max_output := by
        rw [hint]
        simp only [List.length_cons] at hcap ⊢
        push_cast at hcap ⊢
        omega
      rw [if_pos happ]
      constructor
      · rfl
      · rw [List.getLast?_concat, getLast?_eq_getLastD (p0 :: q :: r :: tl) hne]

/-- C5 witness: the amended theorem at a concrete three-point input
with capacity 4 and smoothing factor 1/2. -/
theorem C5_witness :
    (([⟨0,0,1,0,0,0⟩, ⟨5,5,1,1,0,0⟩, ⟨10,0,1,2,0,0⟩] : List PointQ).length : ℤ) ≤ 4 ∧
    ((smooth_stroke_points [⟨0,0,1,0,0,0⟩, ⟨5,5,1,1,0,0⟩, ⟨10,0,1,2,0,0⟩] (1/2) 4).2.head?
        = ([⟨0,0,1,0,0,0⟩, ⟨5,5,1,1,0,0⟩, ⟨10,0,1,2,0,0⟩] : List PointQ).head? ∧
      (smooth_stroke_points [⟨0,0,1,0,0,0⟩, ⟨5,5,1,1,0,0⟩, ⟨10,0,1,2,0,0⟩] (1/2) 4).2.getLast?
        = ([⟨0,0,1,0,0,0⟩, ⟨5,5,1,1,0,0⟩, ⟨10,0,1,2,0,0⟩] : List PointQ).getLast?) :=
  ⟨by simp, C5_amended [⟨0,0,1,0,0,0⟩, ⟨5,5,1,1,0,0⟩, ⟨10,0,1,2,0,0⟩] (1/2) 4 (by simp)⟩

/-- C8 counterexample: the three points (0,0), (2,0), (1,0) are exactly
collinear (cross product zero) and epsilon = 1/2 > 0 with capacity 10,
yet simplify_stroke_rdp keeps all three points, because the middle point
lies beyond the chord and deviation is measured against the clamped
segment. -/
theorem C8_counterexample :
    simplify_stroke_rdp (some [⟨0,0,1,0,0,0⟩, ⟨2,0,1,1,0,0⟩, ⟨1,0,1,2,0,0⟩]) false (1/2) 10
      = (3, [⟨0,0,1,0,0,0⟩, ⟨2,0,1,1,0,0⟩, ⟨1,0,1,2,0,0⟩]) ∧
    ((2:ℚ) - 0) * ((0:ℚ) - 0) = ((0:ℚ) - 0) * ((1:ℚ) - 0) ∧
    (3 : ℤ) ≠ 2 := by
  refine ⟨?_, by norm_num, by decide⟩
  have hF : rdpFindMax [⟨0,0,1,0,0,0⟩, ⟨2,0,1,1,0,0⟩, ⟨1,0,1,2,0,0⟩] 0 2 = (1, 1) := by
    norm_num [rdpFindMax, rdpDev, dist2, List.range']
  have hA : rdp [⟨0,0,1,0,0,0⟩, ⟨2,0,1,1,0,0⟩, ⟨1,0,1,2,0,0⟩] (1/4) 0 1 = [] := by
    rw [rdp]
    norm_num
  have hB : rdp [⟨0,0,1,0,0,0⟩, ⟨2,0,1,1,0,0⟩, ⟨1,0,1,2,0,0⟩] (1/4) 1 2 = [] := by
    rw [rdp]
    norm_num
  have hM : rdp [⟨0,0,1,0,0,0⟩, ⟨2,0,1,1,0,0⟩, ⟨1,0,1,2,0,0⟩] (1/4) 0 2 = [⟨2,0,1,1,0,0⟩] := by
    rw [rdp]
    norm_num [hF, hA, hB]
  have he : ((1:ℚ)/2) * (1/2) = 1/4 := by norm_num
  norm_num [simplify_stroke_rdp, he, hM]

/-- C8 (amended): for three exactly collinear points whose middle point
lies on the closed chord between the endpoints (parameter s in [0,1]),
with the squared chord length above the 1e-12 degeneracy threshold,
any epsilon > 0 and capacity at least 2, simplify_stroke_rdp returns
exactly the two endpoints in order.  (Collinear middle points beyond
the chord, or chords at or below the threshold, can be retained.) -/
theorem C8_amended (A M B : PointQ) (s : ℚ) (epsilon : ℚ) (max_output : ℤ)
    (hMx : M.x = A.x + s * (B.x - A.x)) (hMy : M.y = A.y + s * (B.y - A.y))
    (hs0 : 0 ≤ s) (hs1 : s ≤ 1)
    (hv : (B.x - A.x) * (B.x - A.x) + (B.y - A.y) * (B.y - A.y) > 1e-12)
    (heps : 0 < epsilon) (hcap : 2 ≤ max_output) :
    simplify_stroke_rdp (some [A, M, B]) false epsilon max_output = (2, [A, B]) := by
  have hvlen0 : (B.x - A.x) * (B.x - A.x) + (B.y - A.y) * (B.y - A.y) ≠ 0 := by
    have h0 : (0:ℚ) < 1e-12 := by norm_num
    exact ne_of_gt (lt_trans h0 hv)
  have hdev : rdpDev A B M = 0 := by
    simp only [rdpDev, dist2]
    rw [if_pos hv, hMx, hMy]
    have ht0 : (A.x + s * (B.x - A.x) - A.x) * (B.x - A.x) +
        (A.y + s * (B.y - A.y) - A.y) * (B.y - A.y) =
        s * ((B.x - A.x) * (B.x - A.x) + (B.y - A.y) * (B.y - A.y)) := by ring
    rw [ht0, mul_div_assoc, div_self hvlen0, mul_one, min_eq_right hs1, max_eq_right hs0]
    ring
  have hF : rdpFindMax [A, M, B] 0 2 = (-1, 0) := by
    simp [rdpFindMax, List.range', hdev]
  have hrdp : rdp [A, M, B] (epsilon * epsilon) 0 2 = [] := by
    rw [rdp]
    rw [dif_neg (by omega : ¬ (2 ≤ 0 + 1))]
    have h2 : ¬ ((rdpFindMax [A, M, B] 0 2).2 > epsilon * epsilon ∧
        (rdpFindMax [A, M, B] 0 2).1 ≠ -1) := by
      rw [hF]
      rintro ⟨h, _⟩
      exact absurd h (not_lt.mpr (mul_self_nonneg epsilon))
    rw [dif_neg h2]
  have hmo : ¬ (max_output ≤ 0) := by omega
  have hmin : min (2:ℤ) max_output = 2 := min_eq_left hcap
  norm_num [simplify_stroke_rdp, hrdp, hmo, hmin]

/-- C8 witness: the amended theorem at A=(0,0), M=(1,0), B=(2,0),
s=1/2, epsilon=1, capacity 10. -/
theorem C8_witness :
    ((⟨1,0,1,1,0,0⟩ : PointQ).x = (⟨0,0,1,0,0,0⟩ : PointQ).x +
        (1/2) * ((⟨2,0,1,2,0,0⟩ : PointQ).x - (⟨0,0,1,0,0,0⟩ : PointQ).x)) ∧
    ((⟨1,0,1,1,0,0⟩ : PointQ).y = (⟨0,0,1,0,0,0⟩ : PointQ).y +
        (1/2) * ((⟨2,0,1,2,0,0⟩ : PointQ).y - (⟨0,0,1,0,0,0⟩ : PointQ).y)) ∧
    (0:ℚ) ≤ 1/2 ∧ (1/2:ℚ) ≤ 1 ∧
    (((⟨2,0,1,2,0,0⟩ : PointQ).x - (⟨0,0,1,0,0,0⟩ : PointQ).x) *
        ((⟨2,0,1,2,0,0⟩ : PointQ).x - (⟨0,0,1,0,0,0⟩ : PointQ).x) +
      ((⟨2,0,1,2,0,0⟩ : PointQ).y - (⟨0,0,1,0,0,0⟩ : PointQ).y) *
        ((⟨2,0,1,2,0,0⟩ : PointQ).y - (⟨0,0,1,0,0,0⟩ : PointQ).y) > 1e-12) ∧
    (0:ℚ) < 1 ∧ (2:ℤ) ≤ 10 ∧
    simplify_stroke_rdp (some [⟨0,0,1,0,0,0⟩, ⟨1,0,1,1,0,0⟩, ⟨2,0,1,2,0,0⟩]) false 1 10
      = (2, [⟨0,0,1,0,0,0⟩, ⟨2,0,1,2,0,0⟩]) :=
  ⟨by norm_num, by norm_num, by norm_num, by norm_num, by norm_num, by norm_num, by decide,
    C8_amended ⟨0,0,1,0,0,0⟩ ⟨1,0,1,1,0,0⟩ ⟨2,0,1,2,0,0⟩ (1/2) 1 10
      (by norm_num) (by norm_num) (by norm_num) (by norm_num) (by norm_num) (by norm_num) (by decide)⟩

/-- C3 (amended): resample_stroke_points, compute_stroke_velocity and
simplify_stroke_rdp return a zero-element result, writing nothing, for
null pointers or non-positive counts/capacities; build_calligraphy_mesh
returns a zero-element result for null pointers writing nothing at all,
and for invalid shape (fewer than 2 points, vertex capacity below 4 or
index capacity below 6, which covers every non-positive count or
capacity) writes only a 0 through out_index_count;
calculate_calligraphy_segments returns a zero-element result for
invalid counts/capacities but performs no null-pointer checks; and
smooth_stroke_points performs no null-pointer checks and, on the short
path, returns min(input_count, max_output), which is negative (not 0)
when the capacity is negative. -/
theorem C3_amended :
    (∀ (input? : Option (List PointQ)) (onull : Bool) (spacing : ℚ) (max_output : ℤ),
      (input?.isNone = true ∨ onull = true ∨ (input?.getD []).length = 0 ∨ max_output ≤ 0) →
      resample_stroke_points input? onull spacing max_output = (0, [])) ∧
    (∀ (points? : Option (List PointQ)) (onull : Bool) (max_output : ℤ),
      (points?.isNone = true ∨ onull = true ∨ ((points?.getD []).length : ℤ) < 2 ∨ max_output ≤ 0) →
      compute_stroke_velocity points? onull max_output = (0, [])) ∧
    (∀ (input? : Option (List PointQ)) (onull : Bool) (epsilon : ℚ) (max_output : ℤ),
      (input?.isNone = true ∨ onull = true ∨ (input?.getD []).length = 0 ∨ max_output ≤ 0) →
      simplify_stroke_rdp input? onull epsilon max_output = (0, [])) ∧
    (∀ (points? : Option (List PointR)) (w o a f : ℝ) (vn : Bool) (maxV : ℤ)
        (idn : Bool) (maxI : ℤ) (icn : Bool),
      (points?.isNone = true ∨ vn = true ∨ idn = true ∨ icn = true) →
      build_calligraphy_mesh points? w o a f vn maxV idn maxI icn = ⟨0, [], [], none⟩) ∧
    (∀ (pts : List PointR) (w o a f : ℝ) (maxV maxI : ℤ),
      ((pts.length : ℤ) < 2 ∨ maxV < 4 ∨ maxI < 6) →
      build_calligraphy_mesh (some pts) w o a f false maxV false maxI false
        = ⟨0, [], [], some 0⟩) ∧
    (∀ (points : List PointR) (w o a f : ℝ) (max_segments : ℤ),
      ((points.length : ℤ) < 2 ∨ max_segments ≤ 0) →
      calculate_calligraphy_segments points w o a f max_segments = (0, [])) ∧
    (∀ (input : List PointQ) (factor : ℚ) (max_output : ℤ),
      ((input.length : ℤ) < 3 ∨ max_output ≤ 0) →
      smooth_stroke_points input factor max_output
        = (min (input.length : ℤ) max_output,
           input.take (min (input.length : ℤ) max_output).toNat)) := by
  refine ⟨?_, ?_, ?_, ?_, ?_, ?_, ?_⟩
  · intro input? onull spacing max_output h
    simp only [resample_stroke_points, if_pos h]
  · intro points? onull max_output h
    simp only [compute_stroke_velocity, if_pos h]
  · intro input? onull epsilon max_output h
    simp only [simplify_stroke_rdp, if_pos h]
  · intro points? w o a f vn maxV idn maxI icn h
    simp only [build_calligraphy_mesh, if_pos h]
  · intro pts w o a f maxV maxI h
    have hg : ¬ ((some pts).isNone = true ∨ false = true ∨ false = true ∨ false = true) := by
      simp
    simp only [build_calligraphy_mesh, if_neg hg, Option.getD_some, if_pos h]
  · intro points w o a f max_segments h
    simp only [calculate_calligraphy_segments, if_pos h]
  · intro input factor max_output h
    simp only [smooth_stroke_points, if_pos h]

/-- C3 witness: each guarded operation applied at a concrete null or
invalid-shape input. -/
theorem C3_witness :
    ((none : Option (List PointQ)).isNone = true ∨ false = true ∨
      ((none : Option (List PointQ)).getD []).length = 0 ∨ (4:ℤ) ≤ 0) ∧
    resample_stroke_points none false 5 4 = (0, []) ∧
    compute_stroke_velocity none false 4 = (0, []) ∧
    simplify_stroke_rdp none false 1 4 = (0, []) ∧
    build_calligraphy_mesh none 1 1 0 1 false 8 false 12 false = ⟨0, [], [], none⟩ ∧
    build_calligraphy_mesh (some ([] : List PointR)) 1 1 0 1 false 0 false (-2) false
      = ⟨0, [], [], some 0⟩ ∧
    calculate_calligraphy_segments [] 1 1 0 1 4 = (0, []) ∧
    smooth_stroke_points [] 0 (-3) = (min ((List.length ([] : List PointQ)) : ℤ) (-3),
      ([] : List PointQ).take (min ((List.length ([] : List PointQ)) : ℤ) (-3)).toNat) :=
  ⟨Or.inl rfl,
   C3_amended.1 none false 5 4 (Or.inl rfl),
   C3_amended.2.1 none false 4 (Or.inl rfl),
   C3_amended.2.2.1 none false 1 4 (Or.inl rfl),
   C3_amended.2.2.2.1 none 1 1 0 1 false 8 false 12 false (Or.inl rfl),
   C3_amended.2.2.2.2.1 [] 1 1 0 1 0 (-2) (Or.inl (by decide)),
   C3_amended.2.2.2.2.2.1 [] 1 1 0 1 4 (Or.inl (by decide)),
   C3_amended.2.2.2.2.2.2 [] 0 (-3) (Or.inr (by decide))⟩

/-- C10: build_calligraphy_mesh with any null pointer argument returns
0 with out_index_count untouched (modelled as none), while the shape
failure branch (fewer than 2 points, vertex capacity below 4, or index
capacity below 6) writes 0 through out_index_count (some 0), so after a
null-pointer call the out-parameter keeps its previous value. -/
theorem C10_theorem (points? : Option (List PointR)) (w o a f : ℝ)
    (vn idn icn : Bool) (maxV maxI : ℤ) (pts : List PointR) :
    ((points?.isNone = true ∨ vn = true ∨ idn = true ∨ icn = true) →
      build_calligraphy_mesh points? w o a f vn maxV idn maxI icn = ⟨0, [], [], none⟩) ∧
    (((pts.length : ℤ) < 2 ∨ maxV < 4 ∨ maxI < 6) →
      build_calligraphy_mesh (some pts) w o a f false maxV false maxI false = ⟨0, [], [], some 0⟩) := by
  constructor
  · intro h
    simp only [build_calligraphy_mesh, if_pos h]
  · intro h
    have hg : ¬ ((some pts).isNone = true ∨ false = true ∨ false = true ∨ false = true) := by simp
    simp only [build_calligraphy_mesh, if_neg hg, Option.getD_some, if_pos h]

/-- C10 witness: the null branch at a null points pointer and the shape
branch at an empty point list. -/
theorem C10_witness :
    ((none : Option (List PointR)).isNone = true ∨ false = true ∨ false = true ∨ false = true) ∧
    build_calligraphy_mesh none 1 1 0 1 false 8 false 12 false = ⟨0, [], [], none⟩ ∧
    (((([] : List PointR).length : ℤ) < 2 ∨ (8:ℤ) < 4 ∨ (12:ℤ) < 6) ∧
      build_calligraphy_mesh (some ([] : List PointR)) 1 1 0 1 false 8 false 12 false
        = ⟨0, [], [], some 0⟩) :=
  ⟨Or.inl rfl,
   (C10_theorem none 1 1 0 1 false false false 8 12 []).1 (Or.inl rfl),
   Or.inl (by decide),
   (C10_theorem none 1 1 0 1 false false false 8 12 []).2 (Or.inl (by decide))⟩

/-- C2 counterexample: with opacity parameter 2 the segment calculator
emits a descriptor whose alpha is 2, outside [0, 1]: the segment
calculator does not clamp at emission. -/
theorem C2_counterexample :
    ((calculate_calligraphy_segments [⟨0,0,1,0,0,0⟩, ⟨10,0,1,1,0,0⟩] 1 2 0 1 10).2.map
        (fun d => d.alpha) = [2]) ∧ ¬ ((2:ℝ) ≤ 1) := by
  constructor
  · norm_num [calculate_calligraphy_segments, calcSegLoop, consecPairs]
  · norm_num

/-- Every vertex the mesh loop emits has alpha clamped into [0, 1]. -/
lemma meshLoop_alpha (ndx ndy tb op : ℝ) (maxV maxI : ℤ) :
    ∀ (pairs : List (PointR × PointR)) (v i : ℕ),
      List.Forall (fun vtx => 0 ≤ vtx.alpha ∧ vtx.alpha ≤ 1)
        (meshLoop ndx ndy tb op maxV maxI pairs v i).1 := by
  intro pairs
  induction pairs with
  | nil => intro v i; simp [meshLoop]
  | cons ab rest ih =>
    intro v i
    obtain ⟨a, b⟩ := ab
    simp only [meshLoop]
    split
    · exact ih v i
    · split
      · simp
      · simp only [List.forall_cons]
        have hva : 0 ≤ (if op * ((a.pressure + b.pressure) * 0.5) < 0 then (0:ℝ)
              else if 1 < op * ((a.pressure + b.pressure) * 0.5) then 1
              else op * ((a.pressure + b.pressure) * 0.5)) ∧
            (if op * ((a.pressure + b.pressure) * 0.5) < 0 then (0:ℝ)
              else if 1 < op * ((a.pressure + b.pressure) * 0.5) then 1
              else op * ((a.pressure + b.pressure) * 0.5)) ≤ 1 := by
          split
          · norm_num
          · split
            · norm_num
            · constructor
              · linarith [not_lt.mp (by assumption : ¬ op * ((a.pressure + b.pressure) * 0.5) < 0)]
              · linarith [not_lt.mp (by assumption : ¬ 1 < op * ((a.pressure + b.pressure) * 0.5))]
        exact ⟨hva, hva, hva, hva, ih (v + 4) (i + 6)⟩

/-- Every descriptor the segment loop emits carries the opacity
parameter unchanged. -/
lemma calcSegLoop_alpha (ndx ndy tb op : ℝ) (max_segments : ℤ) :
    ∀ (pairs : List (PointR × PointR)) (cnt : ℤ),
      List.Forall (fun d => d.alpha = op)
        (calcSegLoop ndx ndy tb op max_segments pairs cnt) := by
  intro pairs
  induction pairs with
  | nil => intro cnt; simp [calcSegLoop]
  | cons ab rest ih =>
    intro cnt
    obtain ⟨a, b⟩ := ab
    simp only [calcSegLoop]
    split
    · split
      · exact ih cnt
      · simp only [List.forall_cons]
        exact ⟨by trivial, ih (cnt + 1)⟩
    · simp

/-- C2 (amended): the mesh builder clamps each emitted per-vertex alpha
to [0, 1] for every input including opacity parameters outside [0, 1];
the segment calculator instead emits the opacity parameter unclamped,
so its descriptor opacity lies in [0, 1] only when the parameter does. -/
theorem C2_amended (points? : Option (List PointR)) (w o a f : ℝ) (vn : Bool) (maxV : ℤ)
    (idn : Bool) (maxI : ℤ) (icn : Bool) (points : List PointR) (max_segments : ℤ) :
    List.Forall (fun vtx => 0 ≤ vtx.alpha ∧ vtx.alpha ≤ 1)
      (build_calligraphy_mesh points? w o a f vn maxV idn maxI icn).verts ∧
    List.Forall (fun d => d.alpha = o)
      (calculate_calligraphy_segments points w o a f max_segments).2 := by
  constructor
  · simp only [build_calligraphy_mesh]
    split
    · simp
    · split
      · simp
      · exact meshLoop_alpha _ _ _ _ maxV maxI _ 0 0
  · simp only [calculate_calligraphy_segments]
    split
    · simp
    · exact calcSegLoop_alpha _ _ _ _ max_segments _ 0


/-- Every descriptor the segment loop emits has thickness at least the
0.6 floor. -/
lemma calcSegLoop_thickness (ndx ndy tb op : ℝ) (max_segments : ℤ) :
    ∀ (pairs : List (PointR × PointR)) (cnt : ℤ),
      List.Forall (fun d => 0.6 ≤ d.thickness)
        (calcSegLoop ndx ndy tb op max_segments pairs cnt) := by
  intro pairs
  induction pairs with
  | nil => intro cnt; simp [calcSegLoop]
  | cons ab rest ih =>
    intro cnt
    obtain ⟨a, b⟩ := ab
    simp only [calcSegLoop]
    split
    · split
      · exact ih cnt
      · simp only [List.forall_cons]
        exact ⟨le_max_left 0.6 _, ih (cnt + 1)⟩
    · simp

/-- C7: the thickness formulas of both the segment calculator and the
mesh builder are bounded below by the minimum-thickness floor 0.6 for
all parameter values (in the exact real model no NaN or infinity can
arise), and every descriptor the segment calculator emits has thickness
at least 0.6. -/
theorem C7_theorem (points : List PointR) (w o a f : ℝ) (max_segments : ℤ) (tb c p : ℝ) :
    0.6 ≤ calc_segment_thickness tb c p ∧
    0.6 ≤ mesh_segment_thickness tb c p ∧
    List.Forall (fun d => 0.6 ≤ d.thickness)
      (calculate_calligraphy_segments points w o a f max_segments).2 := by
  refine ⟨le_max_left 0.6 _, le_max_left 0.6 _, ?_⟩
  simp only [calculate_calligraphy_segments]
  split
  · simp
  · exact calcSegLoop_thickness _ _ _ _ max_segments _ 0


/-- Mesh loop invariant: the loop emits whole segments, so there is a
single segment count k with 4k vertices and 6k indices, and every
emitted index is below the final vertex count offset by the starting
counter. -/
lemma meshLoop_inv (ndx ndy tb op : ℝ) (maxV maxI : ℤ) :
    ∀ (pairs : List (PointR × PointR)) (v i : ℕ),
      (∃ k, (meshLoop ndx ndy tb op maxV maxI pairs v i).1.length = 4 * k ∧
        (meshLoop ndx ndy tb op maxV maxI pairs v i).2.length = 6 * k) ∧
      ∀ j ∈ (meshLoop ndx ndy tb op maxV maxI pairs v i).2,
        j < v + (meshLoop ndx ndy tb op maxV maxI pairs v i).1.length := by
  intro pairs
  induction pairs with
  | nil =>
    intro v i
    refine ⟨⟨0, ?_, ?_⟩, ?_⟩ <;> simp [meshLoop]
  | cons ab rest ih =>
    intro v i
    obtain ⟨a, b⟩ := ab
    simp only [meshLoop]
    split
    · exact ih v i
    · split
      · refine ⟨⟨0, ?_, ?_⟩, ?_⟩ <;> simp
      · obtain ⟨⟨k, hk1, hk2⟩, h3⟩ := ih (v + 4) (i + 6)
        refine ⟨⟨k + 1, ?_, ?_⟩, ?_⟩
        · simp only [List.length_cons]
          omega
        · simp only [List.length_cons]
          omega
        · intro j hj
          simp only [List.mem_cons] at hj
          simp only [List.length_cons]
          rcases hj with rfl | rfl | rfl | rfl | rfl | rfl | hj
          · omega
          · omega
          · omega
          · omega
          · omega
          · omega
          · have := h3 j hj
            omega

/-- C6: for every input and every capacity, build_calligraphy_mesh
returns a vertex count equal to the number of written vertices and a
multiple of 4, reports (when it writes the out-parameter at all) an
index count equal to the number of written indices and a multiple of 6,
and every written index is strictly below the returned vertex count;
segments are emitted atomically or not at all: one segment count k
accounts for exactly 4k written vertices and 6k written indices. -/
theorem C6_theorem (points? : Option (List PointR)) (w o a f : ℝ) (vn : Bool) (maxV : ℤ)
    (idn : Bool) (maxI : ℤ) (icn : Bool) :
    (build_calligraphy_mesh points? w o a f vn maxV idn maxI icn).ret
        = ((build_calligraphy_mesh points? w o a f vn maxV idn maxI icn).verts.length : ℤ) ∧
    4 ∣ (build_calligraphy_mesh points? w o a f vn maxV idn maxI icn).verts.length ∧
    ((build_calligraphy_mesh points? w o a f vn maxV idn maxI icn).index_count = none ∨
      (build_calligraphy_mesh points? w o a f vn maxV idn maxI icn).index_count
        = some (((build_calligraphy_mesh points? w o a f vn maxV idn maxI icn).idxs.length : ℤ))) ∧
    6 ∣ (build_calligraphy_mesh points? w o a f vn maxV idn maxI icn).idxs.length ∧
    (∃ k, (build_calligraphy_mesh points? w o a f vn maxV idn maxI icn).verts.length = 4 * k ∧
      (build_calligraphy_mesh points? w o a f vn maxV idn maxI icn).idxs.length = 6 * k) ∧
    List.Forall (fun (j : ℕ) => (j : ℤ) <
        (build_calligraphy_mesh points? w o a f vn maxV idn maxI icn).ret)
      (build_calligraphy_mesh points? w o a f vn maxV idn maxI icn).idxs := by
  simp only [build_calligraphy_mesh]
  split
  · refine ⟨by simp, by simp, Or.inl rfl, by simp, ⟨0, by simp, by simp⟩, by simp⟩
  · split
    · refine ⟨by simp, by simp, Or.inr (by simp), by simp, ⟨0, by simp, by simp⟩, by simp⟩
    · obtain ⟨⟨k, hk1, hk2⟩, h3⟩ := meshLoop_inv (fast_cos (a * Real.pi / 180))
        (fast_sin (a * Real.pi / 180)) (w * clampWidthFactor f)
        o maxV maxI (consecPairs (points?.getD [])) 0 0
      refine ⟨rfl, ⟨k, hk1⟩, Or.inr rfl, ⟨k, hk2⟩, ⟨k, hk1, hk2⟩, ?_⟩
      rw [List.forall_iff_forall_mem]
      intro j hj
      have hlt := h3 j hj
      show (j : ℤ) < ((meshLoop (fast_cos (a * Real.pi / 180)) (fast_sin (a * Real.pi / 180))
        (w * clampWidthFactor f) o maxV maxI (consecPairs (points?.getD [])) 0 0).1.length : ℤ)
      exact_mod_cast by omega


/-- Loop alignment: with enough remaining capacity on both sides, the
vertex positions the mesh loop emits are exactly the quad corners
rebuilt from the descriptors the segment loop emits - the two loops
skip the same near-zero-length segments and evaluate the same thickness
formula. -/
lemma meshCalc_align (ndx ndy tb op : ℝ) (max_segments maxV maxI : ℤ) :
    ∀ (pairs : List (PointR × PointR)) (cnt : ℤ) (v i : ℕ),
      cnt + (pairs.length : ℤ) ≤ max_segments →
      (v : ℤ) + 4 * (pairs.length : ℤ) ≤ maxV →
      (i : ℤ) + 6 * (pairs.length : ℤ) ≤ maxI →
      (meshLoop ndx ndy tb op maxV maxI pairs v i).1.map (fun vtx => (vtx.x, vtx.y))
        = (calcSegLoop ndx ndy tb op max_segments pairs cnt).flatMap quadCorners := by
  intro pairs
  induction pairs with
  | nil => intro cnt v i _ _ _; simp [meshLoop, calcSegLoop]
  | cons ab rest ih =>
    intro cnt v i hs hv hi
    obtain ⟨a, b⟩ := ab
    have hcnt : cnt < max_segments := by
      simp only [List.length_cons] at hs; push_cast at hs; omega
    have hs' : (cnt + 1) + (rest.length : ℤ) ≤ max_segments := by
      simp only [List.length_cons] at hs; push_cast at hs ⊢; omega
    have hv' : ((v + 4 : ℕ) : ℤ) + 4 * (rest.length : ℤ) ≤ maxV := by
      simp only [List.length_cons] at hv; push_cast at hv ⊢; omega
    have hi' : ((i + 6 : ℕ) : ℤ) + 6 * (rest.length : ℤ) ≤ maxI := by
      simp only [List.length_cons] at hi; push_cast at hi ⊢; omega
    have hvs : (v : ℤ) + 4 * (rest.length : ℤ) ≤ maxV := by
      simp only [List.length_cons] at hv; push_cast at hv ⊢; omega
    have his : (i : ℤ) + 6 * (rest.length : ℤ) ≤ maxI := by
      simp only [List.length_cons] at hi; push_cast at hi ⊢; omega
    simp only [meshLoop, calcSegLoop, if_pos hcnt]
    by_cases hdeg : (b.x - a.x) * (b.x - a.x) + (b.y - a.y) * (b.y - a.y) < 1e-12
    · rw [if_pos hdeg, if_pos hdeg]
      exact ih cnt v i (by simp only [List.length_cons] at hs; push_cast at hs ⊢; omega) hvs his
    · rw [if_neg hdeg, if_neg hdeg]
      have hcap : ¬ ((v : ℤ) + 4 > maxV ∨ (i : ℤ) + 6 > maxI) := by
        push_neg
        constructor
        · simp only [List.length_cons] at hv; push_cast at hv; omega
        · simp only [List.length_cons] at hi; push_cast at hi; omega
      rw [if_neg hcap]
      simp only [List.map_cons, List.flatMap_cons]
      rw [ih (cnt + 1) (v + 4) (i + 6) hs' hv' hi']
      simp only [quadCorners, List.cons_append, List.nil_append,
        mesh_segment_thickness, calc_segment_thickness]


/-- A buffer of n points has n - 1 consecutive pairs. -/
lemma consecPairs_length {α : Type} (l : List α) :
    (consecPairs l).length = l.length - 1 := by
  simp only [consecPairs, List.length_zip, List.length_tail]
  omega

/-- C9: with sufficient capacities in both calls and identical
parameters, the mesh vertices are exactly the quads rebuilt from the
segment descriptors: quad i uses the thickness of descriptor i, and
both operations skip exactly the same near-zero-length segments. -/
theorem C9_theorem (points : List PointR) (w o a f : ℝ) (max_segments maxV maxI : ℤ)
    (hseg : (points.length : ℤ) - 1 ≤ max_segments)
    (hV : 4 * ((points.length : ℤ) - 1) ≤ maxV)
    (hI : 6 * ((points.length : ℤ) - 1) ≤ maxI) :
    (build_calligraphy_mesh (some points) w o a f false maxV false maxI false).verts.map
        (fun vtx => (vtx.x, vtx.y))
      = ((calculate_calligraphy_segments points w o a f max_segments).2).flatMap quadCorners := by
  have hgn : ¬ ((some points).isNone = true ∨ false = true ∨ false = true ∨ false = true) := by
    simp
  by_cases hn : (points.length : ℤ) < 2
  · simp only [build_calligraphy_mesh, if_neg hgn, Option.getD_some, calculate_calligraphy_segments]
    rw [if_pos (Or.inl hn), if_pos (Or.inl hn)]
    simp
  · push_neg at hn
    have hshape : ¬ ((points.length : ℤ) < 2 ∨ maxV < 4 ∨ maxI < 6) := by
      push_neg
      exact ⟨hn, by omega, by omega⟩
    have hcg : ¬ ((points.length : ℤ) < 2 ∨ max_segments ≤ 0) := by
      push_neg
      exact ⟨hn, by omega⟩
    simp only [build_calligraphy_mesh, if_neg hgn, Option.getD_some, if_neg hshape,
      calculate_calligraphy_segments, if_neg hcg]
    apply meshCalc_align
    · rw [consecPairs_length]
      omega
    · rw [consecPairs_length]
      omega
    · rw [consecPairs_length]
      omega

/-- C9 witness: the refinement theorem at a concrete two-point stroke
with capacities 5 segments, 8 vertices, 12 indices. -/
theorem C9_witness :
    ((([⟨0,0,1,0,0,0⟩, ⟨1,0,1,1,0,0⟩] : List PointR).length : ℤ) - 1 ≤ 5) ∧
    (4 * ((([⟨0,0,1,0,0,0⟩, ⟨1,0,1,1,0,0⟩] : List PointR).length : ℤ) - 1) ≤ 8) ∧
    (6 * ((([⟨0,0,1,0,0,0⟩, ⟨1,0,1,1,0,0⟩] : List PointR).length : ℤ) - 1) ≤ 12) ∧
    (build_calligraphy_mesh (some [⟨0,0,1,0,0,0⟩, ⟨1,0,1,1,0,0⟩]) 1 1 0 1 false 8 false 12 false).verts.map
        (fun vtx => (vtx.x, vtx.y))
      = ((calculate_calligraphy_segments [⟨0,0,1,0,0,0⟩, ⟨1,0,1,1,0,0⟩] 1 1 0 1 5).2).flatMap quadCorners :=
  ⟨by simp, by simp, by simp,
    C9_theorem [⟨0,0,1,0,0,0⟩, ⟨1,0,1,1,0,0⟩] 1 1 0 1 5 8 12 (by simp) (by simp) (by simp)⟩

end Sketcher
